import Mathlib

/-!
Verification of the secrets-sync secret synchronization engine.

This file gives a shallow embedding, in Lean, of the core components of the
secrets-sync repository (Go):
  * the security-hardened atomic file writer (internal/filewriter/writer.go)
  * the orphaned-temp-file sweep (filewriter cleanup)
  * the configuration namespace/credential resolution (internal/config/types.go)
  * the sync orchestrator (internal/syncer/syncer.go)
  * the KV fetcher and its retry wrapper (internal/vault/fetcher.go and the
    retry file)
  * the scheduler stop path (syncer scheduler)
and proves, or refutes, the behavioural claims made about them.

Filesystem effects are modelled with an explicit finite map from paths to
entries, plus an environment value recording the outcome of each fallible
operating-system call (fault injection).  Go machine integers become Nat/Int;
durations are nanosecond counts as Nat; the float64 backoff multiplier is
modelled as an exact rational with the truncating conversion to an integer
duration made explicit by a floor.
-/

namespace SecretsSync

/-! ## String and slash-path utilities

Go's `path.Clean` / `path.Join` / `filepath.Dir` (slash-separated form, as on
Unix) are modelled on lists of characters. -/

/-- Split a character list at every slash; n slashes yield n+1 segments
(so a leading or trailing slash yields an empty segment). -/
def splitSegs : List Char → List (List Char)
  | [] => [[]]
  | c :: cs =>
    if c = '/' then [] :: splitSegs cs
    else
      match splitSegs cs with
      | [] => [[c]]
      | s :: rest => (c :: s) :: rest

/-- Join segments back with slashes; the inverse of `splitSegs`. -/
def joinSegs : List (List Char) → List Char
  | [] => []
  | [s] => s
  | s :: rest => s ++ '/' :: joinSegs rest

/-- Core of Go `path.Clean`: process the segment list left to right with a
stack, dropping empty and dot segments and resolving dot-dot segments
(dropping them at the root when `rooted`). -/
def cleanCore (rooted : Bool) : List (List Char) → List (List Char) → List (List Char)
  | acc, [] => acc.reverse
  | acc, seg :: rest =>
    if seg = [] ∨ seg = ['.'] then cleanCore rooted acc rest
    else if seg = ['.', '.'] then
      match acc with
      | [] => if rooted then cleanCore rooted [] rest else cleanCore rooted [seg] rest
      | top :: acc2 =>
        if top = ['.', '.'] then cleanCore rooted (seg :: acc) rest
        else cleanCore rooted acc2 rest
    else cleanCore rooted (seg :: acc) rest

/-- Go `path.Clean`: lexical cleaning of a slash-separated path. -/
def pathClean (s : String) : String :=
  if s = "" then "."
  else
    let rooted := s.data.head? = some '/'
    let out := cleanCore rooted [] (splitSegs s.data)
    if rooted then String.mk ('/' :: joinSegs out)
    else if out = [] then "." else String.mk (joinSegs out)

/-- Go `strings.Join`. -/
def strJoin (sep : String) : List String → String
  | [] => ""
  | [x] => x
  | x :: rest => x ++ sep ++ strJoin sep rest

/-- Go `path.Join`: drop leading empty elements, join the rest with slashes
and clean the result. -/
def pathJoin : List String → String
  | [] => ""
  | e :: rest => if e = "" then pathJoin rest else pathClean (strJoin "/" (e :: rest))

/-- Go `filepath.Dir` for slash paths: everything up to and including the
final slash, cleaned (`"."` when there is no slash). -/
def dirname (p : String) : String :=
  pathClean (String.mk ((p.data.reverse.dropWhile (· ≠ '/')).reverse))

/-- Go `strings.Contains`: substring test (on the character sequence). -/
def strContains (s sub : String) : Bool := decide (sub.data <:+: s.data)

/-- Go `strings.HasPrefix` on the character sequence. -/
def strHasPref (s pre : String) : Bool := pre.data.isPrefixOf s.data

/-! ## Filesystem model

A filesystem is a finite association list from absolute path strings to
entries.  An entry records what `os.Lstat` would report: a regular file (with
content, permission bits and ownership), a directory, a symbolic link, or a
special file (device, pipe, socket). -/

/-- A filesystem entry as seen by `os.Lstat` (which does not follow links). -/
inductive Entry
  | regular (content : String) (mode : Nat) (uid gid : Int)
  | dir
  | symlink (target : String)
  | special
deriving DecidableEq, Repr

/-- A filesystem: association list from paths to entries. -/
abbrev FS := List (String × Entry)

/-- Look up a path in the filesystem. -/
def fsGet (fs : FS) (p : String) : Option Entry :=
  (fs.find? (fun kv => kv.1 = p)).map (·.2)

/-- Remove a path from the filesystem (`os.Remove`; removal of a missing
path is a no-op here because the writer discards the removal error). -/
def fsErase (fs : FS) (p : String) : FS :=
  fs.filter (fun kv => kv.1 ≠ p)

/-- Create or replace the entry at a path. -/
def fsSet (fs : FS) (p : String) (e : Entry) : FS :=
  (p, e) :: fsErase fs p

/-! ## Secure file writer (internal/filewriter/writer.go)

Fallible operating-system calls are driven by an environment value: the
outcome of `os.WriteFile` on the temp file (success; failure with nothing
created, e.g. open error; or failure after the file was created, e.g. a short
write on a full disk), the outcomes of `os.Chown`, `os.Rename` and
`os.MkdirAll`, and the random suffix produced by `randomString(8)`. -/

/-- Outcome of the `os.WriteFile` call on the temporary file. -/
inductive WriteOutcome
  | ok
  | failNoCreate
  | failAfterCreate
deriving DecidableEq, Repr

/-- Environment for one `WriteFile` call: outcomes of the fallible system
calls and the random temp-name suffix. -/
structure Env where
  writeOutcome : WriteOutcome
  partialContent : String
  chownOk : Bool
  renameOk : Bool
  mkdirOk : Bool
  tmpSuffix : String
  procUid : Int
  procGid : Int
deriving Repr

/-- MaxSecretSize from writer.go: 1 MiB. -/
def MaxSecretSize : Nat := 1 * 1024 * 1024

/-- MaxPathLen for Unix, PATH_MAX = 4096 (the repository's limits_unix.go
constant, documented in its Go-practices steering file; the Windows build uses
260). -/
def MaxPathLen : Nat := 4096

/-- FileConfig from writer.go. -/
structure FileConfig where
  Path : String
  Mode : Nat
  Owner : Int
  Group : Int
deriving Repr

/-- validatePath from writer.go: reject empty, over-long, Windows
extended/device/UNC, relative, and dot-dot-containing paths.  Returns an
error message, or `none` when the path is acceptable.  Path length is the
byte length, as Go's `len`; `filepath.IsAbs` on Unix is a leading slash. -/
def validatePath (path : String) : Option String :=
  if path = "" then some "path cannot be empty"
  else if path.utf8ByteSize > MaxPathLen then some "path length exceeds maximum for this OS"
  else if strHasPref path "\\\\?\\" || strHasPref path "\\\\.\\" then
    some "extended paths and device paths are not allowed"
  else if strHasPref path "\\\\" then some "UNC paths are not allowed"
  else if !(strHasPref path "/") then some "path must be absolute"
  else if strContains path ".." then some "path contains dot-dot which is not allowed"
  else none

/-- validateFileType from writer.go: `os.Lstat` the target; absence is fine;
symlinks and special files are rejected; regular files and directories pass. -/
def validateFileType (fs : FS) (path : String) : Option String :=
  match fsGet fs path with
  | none => none
  | some (Entry.symlink _) => some "symbolic links are not allowed"
  | some (Entry.special) => some "only regular files are allowed"
  | some (Entry.regular _ _ _ _) => none
  | some Entry.dir => none

/-- ensureDir from writer.go: `os.MkdirAll` on the parent directory (modelled
as creating the leaf directory entry when absent); a failing MkdirAll leaves
the filesystem unchanged and returns an error. -/
def ensureDir (env : Env) (fs : FS) (dir : String) : FS × Option String :=
  if dir = "" ∨ dir = "." then (fs, none)
  else if env.mkdirOk then
    (if fsGet fs dir = none then fsSet fs dir Entry.dir else fs, none)
  else (fs, some "failed to create directory")

/-- Chown semantics used on the temp file: a non-negative owner or group
replaces the stored id, minus one keeps it. -/
def applyChown (e : Entry) (owner group : Int) : Entry :=
  match e with
  | Entry.regular c m u g =>
      Entry.regular c m (if owner ≥ 0 then owner else u) (if group ≥ 0 then group else g)
  | e => e

/-- The temporary file name used by WriteFile: target path, the literal
`.tmp.` separator, then the random suffix. -/
def tmpName (cfg : FileConfig) (env : Env) : String :=
  cfg.Path ++ ".tmp." ++ env.tmpSuffix

/-- The `os.Rename(tmpFile, config.Path)` step of WriteFile: on success the
temp entry atomically replaces the target; on failure the temp file is
removed before returning the error. -/
def renameStep (env : Env) (fs : FS) (tmpFile dst : String) : FS × Option String :=
  if env.renameOk then
    match fsGet fs tmpFile with
    | some e => (fsSet (fsErase fs tmpFile) dst e, none)
    | none => (fsErase fs tmpFile, some "failed to rename temp file")
  else (fsErase fs tmpFile, some "failed to rename temp file")

/-- WriteFile from writer.go (the hardened revision): size check, path
validation, target-type validation, parent creation, temp-file write with a
random suffix, optional chown (removing the temp file on failure), and the
atomic rename (removing the temp file on failure). -/
def WriteFile (env : Env) (fs : FS) (cfg : FileConfig) (content : String) :
    FS × Option String :=
  if content.utf8ByteSize > MaxSecretSize then
    (fs, some "content size exceeds maximum allowed size")
  else match validatePath cfg.Path with
  | some e => (fs, some ("invalid path: " ++ e))
  | none =>
    match validateFileType fs cfg.Path with
    | some e => (fs, some ("invalid file type: " ++ e))
    | none =>
      match ensureDir env fs (dirname cfg.Path) with
      | (fs1, some e) => (fs1, some e)
      | (fs1, none) =>
        let tmpFile := tmpName cfg env
        match env.writeOutcome with
        | WriteOutcome.failNoCreate => (fs1, some "failed to write temp file")
        | WriteOutcome.failAfterCreate =>
            (fsSet fs1 tmpFile (Entry.regular env.partialContent cfg.Mode env.procUid env.procGid),
             some "failed to write temp file")
        | WriteOutcome.ok =>
          let fs2 := fsSet fs1 tmpFile (Entry.regular content cfg.Mode env.procUid env.procGid)
          if cfg.Owner ≥ 0 ∨ cfg.Group ≥ 0 then
            if env.chownOk then
              let fs3 := fsSet fs2 tmpFile
                (applyChown (Entry.regular content cfg.Mode env.procUid env.procGid) cfg.Owner cfg.Group)
              renameStep env fs3 tmpFile cfg.Path
            else (fsErase fs2 tmpFile, some "failed to set ownership")
          else renameStep env fs2 tmpFile cfg.Path

/-! ## Mode and owner parsing (writer.go) -/

/-- Go `strconv.ParseUint(s, 8, 32)`: a non-empty string of octal digits
whose value fits in 32 bits (explicit base, so no prefixes or underscores). -/
def parseOctal32 (s : String) : Option Nat :=
  if s = "" then none
  else if s.data.all (fun c => '0' ≤ c ∧ c ≤ '7') then
    let v := s.data.foldl (fun acc c => acc * 8 + (c.toNat - '0'.toNat)) 0
    if v < 2 ^ 32 then some v else none
  else none

/-- validateMode from writer.go: reject world-writable bits, the combination
of group-writable and world-readable bits, and any permission value
numerically above 0644.  The permission bits are the low nine bits
(`mode & os.ModePerm`). -/
def validateMode (mode : Nat) : Option String :=
  if mode &&& 0o777 &&& 0o002 ≠ 0 then some "world-writable permissions are not allowed"
  else if mode &&& 0o777 &&& 0o020 ≠ 0 ∧ mode &&& 0o777 &&& 0o004 ≠ 0 then
    some "group-writable with world-readable is too permissive"
  else if mode &&& 0o777 > 0o644 then some "permissions are too permissive, maximum is 0644"
  else none

/-- ParseMode from writer.go: empty defaults to 0600; otherwise parse octal
and validate. -/
def ParseMode (mode : String) : Option Nat :=
  if mode = "" then some 0o600
  else match parseOctal32 mode with
  | none => none
  | some m => match validateMode m with
    | some _ => none
    | none => some m

/-- Go `strconv.Atoi` on a 64-bit platform: optional sign, decimal digits,
64-bit signed range. -/
def parseIntDec (s : String) : Option Int :=
  match s.data with
  | [] => none
  | c :: rest =>
    let signed := if c = '-' ∨ c = '+' then rest else c :: rest
    let neg := c = '-'
    if signed = [] then none
    else if signed.all (fun d => '0' ≤ d ∧ d ≤ '9') then
      let v : Nat := signed.foldl (fun a d => a * 10 + (d.toNat - '0'.toNat)) 0
      let i : Int := if neg then -(v : Int) else (v : Int)
      if -(2 ^ 63) ≤ i ∧ i < 2 ^ 63 then some i else none
    else none

/-- ParseOwner from writer.go: empty means minus one (keep), otherwise Atoi. -/
def ParseOwner (owner : String) : Option Int :=
  if owner = "" then some (-1) else parseIntDec owner

/-! ## Orphaned temp-file sweep (filewriter cleanup file)

`CleanupOrphanedTempFiles` stats each output directory and removes every
entry of it matched by `filepath.Glob(filepath.Join(dir, "*.tmp"))`.  In the
glob pattern `*` matches any possibly-empty run of non-separator characters,
so a directory entry with base name `b` matches exactly when `b` ends in the
four characters `.tmp`. -/

/-- Whether path `p` is a direct entry of directory `dir` whose base name
matches the glob pattern `*.tmp`. -/
def matchesTmpGlob (dir p : String) : Bool :=
  (dir ++ "/").data.isPrefixOf p.data &&
    (let base := p.data.drop (dir ++ "/").data.length
     base.all (· ≠ '/') && ".tmp".data.isSuffixOf base)

/-- One directory pass of CleanupOrphanedTempFiles: skip empty names and
missing directories, then remove every glob match (removal errors are only
logged in the source, so removal is modelled as effective). -/
def cleanupDir (fs : FS) (dir : String) : FS :=
  if dir = "" then fs
  else match fsGet fs dir with
  | none => fs
  | some _ => ((fs.map (·.1)).filter (matchesTmpGlob dir)).foldl fsErase fs

/-- CleanupOrphanedTempFiles over a list of output directories. -/
def CleanupOrphanedTempFiles (fs : FS) (outputDirs : List String) : FS :=
  outputDirs.foldl cleanupDir fs

/-! ## Configuration types (internal/config/types.go) -/

/-- CredentialSet from types.go. -/
structure CredentialSet where
  AuthMethod : String
  Token : String
  RoleID : String
  SecretID : String
deriving DecidableEq, Repr

/-- SecretStore from types.go (TLS fields omitted: no claim concerns them). -/
structure SecretStore where
  Address : String
  Namespace : String
  AuthMethod : String
  Token : String
  RoleID : String
  SecretID : String
  Credentials : List (String × CredentialSet)
deriving DecidableEq, Repr

/-- File from types.go: one output file of a secret. -/
structure File where
  Path : String
  Mode : String
  Owner : String
  Group : String
deriving DecidableEq, Repr

/-- Secret from types.go.  `Template` models the `Template.Data` Go map as an
association list whose keys are unique (map keys cannot repeat). -/
structure Secret where
  Name : String
  Key : String
  MountPath : String
  Namespace : String
  Credentials : String
  KVVersion : String
  RefreshInterval : Nat
  Template : List (String × String)
  Files : List File
deriving DecidableEq, Repr

/-- Config from types.go. -/
structure Config where
  SecretStore : SecretStore
  Secrets : List Secret
deriving DecidableEq, Repr

/-- Association-list lookup used for Go map reads. -/
def lookupStr {α : Type} (l : List (String × α)) (k : String) : Option α :=
  (l.find? (fun kv => kv.1 = k)).map (·.2)

/-- ResolveNamespace from types.go: the per-secret namespace when it is
non-empty, otherwise the store-wide namespace. -/
def ResolveNamespace (s : Secret) (globalNamespace : String) : String :=
  if s.Namespace ≠ "" then s.Namespace else globalNamespace

/-- ResolveCredentials from types.go: the per-secret credential-set name
(empty means the default credentials). -/
def ResolveCredentials (s : Secret) : String := s.Credentials

/-- GetDefaultCredentials from types.go. -/
def GetDefaultCredentials (ss : SecretStore) : CredentialSet :=
  ⟨ss.AuthMethod, ss.Token, ss.RoleID, ss.SecretID⟩

/-- GetCredentials from types.go: by name, or the default for the empty
name; `none` when a named set is absent. -/
def GetCredentials (ss : SecretStore) (name : String) : Option CredentialSet :=
  if name = "" then some (GetDefaultCredentials ss) else lookupStr ss.Credentials name

/-! ## Template engine (internal/template package)

The engine registers named `text/template` templates and renders them against
a flat field map.  The templates this system uses are plain text interleaved
with field actions of the form open-brace open-brace dot field-name
close-brace close-brace (with optional spaces inside the action); this model
parses exactly that fragment, rejecting anything else at registration time,
the way `template.Parse` rejects malformed syntax.  A field absent from the
data renders the `text/template` placeholder for a missing map key.  Field
values are modelled as strings, which is how rendered secret fields are
written. -/

/-- The open-brace character, written numerically. -/
def obr : Char := Char.ofNat 123

/-- The close-brace character, written numerically. -/
def cbr : Char := Char.ofNat 125

/-- One parsed template node: literal text or a field reference. -/
inductive TmplPart
  | lit (s : List Char)
  | fieldRef (name : List Char)
deriving DecidableEq, Repr

/-- Scan up to the closing double brace of an action, returning the action
body and the rest of the input. -/
def takeAction : List Char → Option (List Char × List Char)
  | [] => none
  | c :: cs =>
    if c = cbr ∧ cs.head? = some cbr then some ([], cs.tail)
    else
      match takeAction cs with
      | some (inner, rest) => some (c :: inner, rest)
      | none => none

/-- Characters allowed in a template field name. -/
def isIdentChar (c : Char) : Bool := c.isAlphanum || c = '_'

/-- Parse one action body: optional spaces, a dot, a non-empty identifier,
optional spaces.  Anything else is a syntax the engine's callers never use
and is rejected, as `template.Parse` would reject an unknown action here. -/
def parseFieldAction (inner : List Char) : Option (List Char) :=
  let t := ((inner.dropWhile (· = ' ')).reverse.dropWhile (· = ' ')).reverse
  match t with
  | '.' :: name => if name ≠ [] ∧ name.all isIdentChar then some name else none
  | _ => none

/-- Fuel-indexed scan of a template body into parts. -/
def parseTmplAux : Nat → List Char → Option (List TmplPart)
  | 0, cs => if cs = [] then some [] else none
  | _ + 1, [] => some []
  | fuel + 1, c :: cs =>
    if c = obr ∧ cs.head? = some obr then
      match takeAction cs.tail with
      | none => none
      | some (inner, rest) =>
        match parseFieldAction inner with
        | none => none
        | some name =>
          match parseTmplAux fuel rest with
          | none => none
          | some parts => some (TmplPart.fieldRef name :: parts)
    else
      match parseTmplAux fuel cs with
      | none => none
      | some parts => some (TmplPart.lit [c] :: parts)

/-- AddTemplate's parse step (`template.New(name).Parse(tmpl)`). -/
def parseTmpl (tmpl : String) : Option (List TmplPart) :=
  parseTmplAux (tmpl.data.length + 1) tmpl.data

/-- The placeholder `text/template` prints for a map lookup with no entry. -/
def noValue : String := "<no value>"

/-- Render parsed parts against the flat field map. -/
def renderParts (parts : List TmplPart) (data : List (String × String)) : String :=
  String.mk (parts.foldr
    (fun p acc =>
      (match p with
       | TmplPart.lit s => s
       | TmplPart.fieldRef n =>
         match lookupStr data (String.mk n) with
         | some v => v.data
         | none => noValue.data) ++ acc) [])

/-- The syncer's AddTemplate loop over a secret's template map: parse every
template, failing on the first malformed one. -/
def addTemplates : List (String × String) → Option (List (String × List TmplPart))
  | [] => some []
  | (n, t) :: rest =>
    match parseTmpl t with
    | none => none
    | some parts =>
      match addTemplates rest with
      | none => none
      | some acc => some ((n, parts) :: acc)

/-! ## Sync orchestrator (internal/syncer/syncer.go)

`SyncSecret` resolves credentials and namespace, fetches through the pooled
client with retry, renders all templates, checks the rendered count against
the file count, and writes each file with the value of the positionally
matching sorted template name.  The client pool and the retrying fetch are
abstracted into one `fetch` function taking the mount path, key, KV version
and resolved namespace; the file writes are collected as (path, content)
pairs in write order (the hardened writer itself is modelled above). -/

/-- The fetch dependency of the orchestrator: mount path, key, KV version,
namespace. -/
abbrev FetchFn := String → String → String → String → Except String (List (String × String))

/-- Lexicographic less-or-equal on character sequences (Go's string order;
byte order and character order agree on the ASCII names involved). -/
def charListLe : List Char → List Char → Bool
  | [], _ => true
  | _ :: _, [] => false
  | a :: as, b :: bs =>
    if a.toNat < b.toNat then true
    else if b.toNat < a.toNat then false
    else charListLe as bs

/-- Lexicographic less-or-equal on strings. -/
def strLe (a b : String) : Bool := charListLe a.data b.data

/-- Insertion of a string into a lexicographically sorted list. -/
def insertSorted (x : String) : List String → List String
  | [] => [x]
  | y :: rest => if strLe x y then x :: y :: rest else y :: insertSorted x rest

/-- Go `sort.Strings`: sort ascending lexicographically (realised here as an
insertion sort, which produces the same sorted sequence). -/
def sortStrings (l : List String) : List String := l.foldr insertSorted []

/-- The per-file write loop of SyncSecret: each file's mode, owner and group
strings are parsed (failing the sync on the first bad one) and the file is
written with the rendered value of the template name at the same ordinal
position in the sorted name list (empty when the index is out of range). -/
def writeFiles (names : List String) (rendered : List (String × String)) :
    List File → Nat → List (String × String) × Option String
  | [], _ => ([], none)
  | f :: rest, i =>
    match ParseMode f.Mode with
    | none => ([], some ("invalid mode for file " ++ f.Path))
    | some _ =>
      match ParseOwner f.Owner with
      | none => ([], some ("invalid owner for file " ++ f.Path))
      | some _ =>
        match ParseOwner f.Group with
        | none => ([], some ("invalid group for file " ++ f.Path))
        | some _ =>
          let content := if i < names.length then
            (lookupStr rendered (names.getD i "")).getD "" else ""
          let t := writeFiles names rendered rest (i + 1)
          ((f.Path, content) :: t.1, t.2)

/-- SyncSecret from syncer.go: returns the (path, content) writes performed
in order, and the error if the sync failed. -/
def SyncSecret (cfg : Config) (secret : Secret) (fetch : FetchFn) :
    List (String × String) × Option String :=
  let credName := ResolveCredentials secret
  match GetCredentials cfg.SecretStore credName with
  | none => ([], some ("credentials " ++ credName ++ " not found"))
  | some _ =>
    let nsp := ResolveNamespace secret cfg.SecretStore.Namespace
    match fetch secret.MountPath secret.Key secret.KVVersion nsp with
    | Except.error e => ([], some ("failed to fetch secret: " ++ e))
    | Except.ok data =>
      match addTemplates secret.Template with
      | none => ([], some "failed to add template")
      | some parsed =>
        let rendered := parsed.map (fun nt => (nt.1, renderParts nt.2 data))
        if rendered.length ≠ secret.Files.length then
          ([], some "template count does not match file count")
        else
          let templateNames := sortStrings (secret.Template.map (·.1))
          writeFiles templateNames rendered secret.Files 0

/-! ## KV fetcher (internal/vault/fetcher.go)

`FetchSecret` builds the read path from the mount path, the secret path and
the KV schema version, performs the read through the circuit breaker, and
validates the response shape.  The breaker-wrapped `Logical().Read` is a
`read` function parameter returning either an error, a nil secret, or an
`api.Secret`; response values (`map[string]interface{}`) are modelled by a
small JSON-like type.  The type assertion of the breaker result to
`*api.Secret` cannot fail in the source (the breaker returns the read's own
result), so it has no failing branch here. -/

/-- A JSON-like response value: a string, a string-keyed object, or any
other shape. -/
inductive JVal
  | str (v : String)
  | obj (fields : List (String × JVal))
  | other

/-- The relevant part of `api.Secret`: its `Data` map, absent when nil. -/
structure ApiSecret where
  Data : Option (List (String × JVal))

/-- The read path FetchSecret constructs: KV v2 wraps the key under a `data`
segment, anything else reads the key directly. -/
def fetchReadPath (mountPath secretPath kvVersion : String) : String :=
  if kvVersion = "v2" then pathJoin [mountPath, "data", secretPath]
  else pathJoin [mountPath, secretPath]

/-- FetchSecret from fetcher.go, over a breaker-wrapped `read`. -/
def FetchSecret (read : String → Except String (Option ApiSecret))
    (mountPath secretPath kvVersion : String) : Except String (List (String × JVal)) :=
  match read (fetchReadPath mountPath secretPath kvVersion) with
  | Except.error e => Except.error ("failed to read secret: " ++ e)
  | Except.ok none => Except.error ("secret not found at path: " ++ secretPath)
  | Except.ok (some secret) =>
    match secret.Data with
    | none => Except.error "secret has no data"
    | some d =>
      if kvVersion = "v2" then
        match lookupStr d "data" with
        | some (JVal.obj data) => Except.ok data
        | _ => Except.error "invalid secret data format for KV v2"
      else Except.ok d

/-! ## Retry with exponential backoff (vault retry file)

`FetchSecretWithRetry` runs up to `MaxRetries + 1` attempts.  Before every
attempt but the first it waits the current backoff under a select that
aborts with a cancellation error if the context is done, then multiplies the
backoff by the configured multiplier (a float64, applied to the integer
nanosecond count and truncated back) and caps it at `MaxBackoff`.  The
underlying fetch is abstracted as a per-attempt outcome, and the context as
a per-wait cancellation flag. -/

/-- RetryConfig from the vault retry file.  Durations are nanosecond counts;
the float64 multiplier is an exact rational. -/
structure RetryConfig where
  InitialBackoff : Nat
  MaxBackoff : Nat
  Multiplier : Rat
  MaxRetries : Nat
deriving Repr

/-- The backoff update after a wait: multiply by the multiplier, truncate to
an integer duration, and cap at MaxBackoff.  The floor of the product of a
natural count with the rational `num/den` is computed as the floor division
of the integer `b * num` by `den`. -/
def nextBackoff (cfg : RetryConfig) (b : Nat) : Nat :=
  let nb := (((b : Int) * cfg.Multiplier.num).fdiv (cfg.Multiplier.den : Int)).toNat
  if nb > cfg.MaxBackoff then cfg.MaxBackoff else nb

/-- Result of a retried fetch: the first successful attempt's data, a
cancellation observed while waiting, or exhaustion of all attempts. -/
inductive RetryResult (α : Type)
  | success (data : α)
  | cancelled
  | exhausted
deriving DecidableEq, Repr

/-- Observable trace of a retried fetch: its result, the backoff waits
actually performed (in order), and how many attempts were made. -/
structure RetryTrace (α : Type) where
  result : RetryResult α
  waits : List Nat
  attemptsMade : Nat
deriving DecidableEq, Repr

/-- One loop frame of FetchSecretWithRetry at a given attempt index, current
backoff and remaining iterations.  `att i` is the outcome of attempt `i`
(the underlying FetchSecret call); `canc i` says whether the context is
cancelled at the select guarding the wait before attempt `i`. -/
def retryFrom {α : Type} (att : Nat → Option α) (canc : Nat → Bool) (cfg : RetryConfig) :
    Nat → Nat → Nat → RetryTrace α
  | _, _, 0 => ⟨RetryResult.exhausted, [], 0⟩
  | attempt, backoff, fuel + 1 =>
    match att attempt with
    | some d => ⟨RetryResult.success d, [], 1⟩
    | none =>
      if fuel = 0 then ⟨RetryResult.exhausted, [], 1⟩
      else if canc (attempt + 1) then ⟨RetryResult.cancelled, [], 1⟩
      else
        let t := retryFrom att canc cfg (attempt + 1) (nextBackoff cfg backoff) fuel
        ⟨t.result, backoff :: t.waits, t.attemptsMade + 1⟩

/-- FetchSecretWithRetry from the vault retry file: attempts 0 through
MaxRetries, an uncancelled wait of the current backoff before each attempt
after the first, the backoff multiplied (with truncation) and capped after
each wait. -/
def FetchSecretWithRetry {α : Type} (att : Nat → Option α) (canc : Nat → Bool)
    (cfg : RetryConfig) : RetryTrace α :=
  retryFrom att canc cfg 0 cfg.InitialBackoff (cfg.MaxRetries + 1)

/-! ## Scheduler stop path (syncer scheduler file)

The scheduler owns a job table, a scheduler-wide stop channel and a buffered
results channel.  `Stop` closes the stop channel, stops every job's ticker,
closes every job's stop channel and empties the job table; each job goroutine
returns once its stop channel or the scheduler stop channel is closed.  The
model records, per job, whether its ticker is active and whether its stop
channel is closed, and for the scheduler whether the stop and results
channels are closed. -/

/-- The observable state of one scheduler job. -/
structure SJob where
  secretName : String
  tickerActive : Bool
  stopChClosed : Bool
deriving DecidableEq, Repr

/-- The observable state of the scheduler. -/
structure Scheduler where
  jobs : List (String × SJob)
  stopChClosed : Bool
  resultsClosed : Bool
deriving DecidableEq, Repr

/-- NewScheduler: empty job table, open stop channel, open results channel. -/
def Scheduler.new : Scheduler :=
  ⟨[], false, false⟩

/-- Whether a job's select loop can still fire a tick: its ticker runs and
neither its stop channel nor the scheduler stop channel is closed. -/
def Scheduler.canFire (s : Scheduler) (j : SJob) : Bool :=
  j.tickerActive && !j.stopChClosed && !s.stopChClosed

/-- Stop from the scheduler file: close the scheduler stop channel, stop each
job's ticker and close its stop channel, and reset the job table.  Returns
the new scheduler state and the stopped job objects.  The results channel is
not touched by the source's Stop, so its state carries over. -/
def Scheduler.Stop (s : Scheduler) : Scheduler × List SJob :=
  (⟨[], true, s.resultsClosed⟩,
   s.jobs.map (fun kv => ⟨kv.2.secretName, false, true⟩))

/-! ## Spec-side predicates

These two predicates are written from the specification's wording, to be
compared against the source-translated validators. -/

/-- The specification's unsafe-path condition: empty, not absolute, contains
a dot-dot sequence, longer than the platform maximum, or carries a Windows
extended, device or UNC prefix. -/
def specBadPath (p : String) : Bool :=
  (p == "") || !(strHasPref p "/") || strContains p ".." ||
    decide (p.utf8ByteSize > MaxPathLen) ||
    strHasPref p "\\\\?\\" || strHasPref p "\\\\.\\" || strHasPref p "\\\\"

/-- The specification's rejected-mode condition on the permission bits:
world-writable, or group-writable together with world-readable, or more
permissive than the 0644 ceiling. -/
def specModeRejected (m : Nat) : Bool :=
  (m &&& 0o777 &&& 0o002 != 0) ||
    ((m &&& 0o777 &&& 0o020 != 0) && (m &&& 0o777 &&& 0o004 != 0)) ||
    decide (m &&& 0o777 > 0o644)

/-- A path string that is a clean relative slash path: every slash-separated
segment is non-empty and is neither a dot nor a dot-dot (so lexical cleaning
leaves it untouched). -/
def cleanRelPath (s : String) : Bool :=
  (splitSegs s.data).all (fun seg => !seg.isEmpty && !(seg == ['.']) && !(seg == ['.', '.']))

/-! ## Concrete instances used by witnesses and counterexamples -/

/-- Environment whose temp-file write fails after creating the file (for
example a short write on a full disk). -/
def envFailAfter : Env := ⟨WriteOutcome.failAfterCreate, "part", true, true, true, "a1b2c3d4", 0, 0⟩

/-- Environment whose chown call fails; everything else succeeds. -/
def envChownFail : Env := ⟨WriteOutcome.ok, "", false, true, true, "a1b2c3d4", 0, 0⟩

/-- Environment in which every system call succeeds. -/
def envOkAll : Env := ⟨WriteOutcome.ok, "", true, true, true, "a1b2c3d4", 0, 0⟩

/-- A filesystem holding just the output directory. -/
def fsOneDir : FS := [("/out", Entry.dir)]

/-- Target configuration without ownership change. -/
def cfgTarget : FileConfig := ⟨"/out/secret", 0o600, -1, -1⟩

/-- Target configuration requesting ownership change. -/
def cfgOwned : FileConfig := ⟨"/out/secret", 0o600, 5, 5⟩

/-- Target configuration with a traversal path. -/
def cfgTraversal : FileConfig := ⟨"/tmp/../etc/passwd", 0o600, -1, -1⟩

/-- A filesystem with a pre-existing symlink at the target path. -/
def fsSymlink : FS := [("/out", Entry.dir), ("/out/secret", Entry.symlink "/etc/passwd")]

/-- A filesystem holding an orphaned temp file written by the hardened
writer's naming scheme, and an unrelated user file whose name happens to end
in `.tmp`. -/
def fsSweep : FS :=
  [("/out", Entry.dir),
   ("/out/secret.conf.tmp.a1b2c3d4", Entry.regular "s" 0o600 0 0),
   ("/out/data.tmp", Entry.regular "d" 0o644 0 0)]

/-- The writer configuration whose interrupted write would leave the orphan
of `fsSweep` behind. -/
def cfgSweep : FileConfig := ⟨"/out/secret.conf", 0o600, -1, -1⟩

/-- A secret whose per-secret namespace is the explicit empty string. -/
def secretNsEmpty : Secret := ⟨"s", "app", "secret", "", "", "v2", 30, [], []⟩

/-- A store with the namespace `teamns` and token credentials. -/
def storeTeam : SecretStore := ⟨"http://v", "teamns", "token", "t", "", "", []⟩

/-- A config wrapping `storeTeam`. -/
def cfgTeam : Config := ⟨storeTeam, []⟩

/-- A fetch function recognising only the namespace `teamns`. -/
def fetchTeamA : FetchFn :=
  fun _ _ _ nsp => if nsp = "teamns" then Except.ok [("x", "1")] else Except.error "a"

/-- Another fetch function agreeing with `fetchTeamA` on `teamns` only. -/
def fetchTeamB : FetchFn :=
  fun _ _ _ nsp => if nsp = "teamns" then Except.ok [("x", "1")] else Except.error "b"

/-- The template text for field `x` (double brace, dot x, double brace). -/
def tmplA : String := String.mk [obr, obr, '.', 'x', cbr, cbr]

/-- The template text for field `y`. -/
def tmplB : String := String.mk [obr, obr, '.', 'y', cbr, cbr]

/-- The claim's positional-mapping secret: templates a and b, two files. -/
def secretPair : Secret :=
  ⟨"s", "app", "secret", "", "", "v2", 30, [("a", tmplA), ("b", tmplB)],
   [⟨"/out/f1", "0600", "", ""⟩, ⟨"/out/f2", "0600", "", ""⟩]⟩

/-- The parsed form of `secretPair`'s templates. -/
def parsedPair : List (String × List TmplPart) :=
  [("a", [TmplPart.fieldRef ['x']]), ("b", [TmplPart.fieldRef ['y']])]

/-- A config with default token credentials and no store namespace. -/
def cfgPlain : Config := ⟨⟨"http://v", "", "token", "t", "", "", []⟩, []⟩

/-- A fetch returning fields x = 1 and y = 2. -/
def fetchPair : FetchFn := fun _ _ _ _ => Except.ok [("x", "1"), ("y", "2")]

/-- A read function returning a KV v2 response with one field. -/
def readKV : String → Except String (Option ApiSecret) :=
  fun _ => Except.ok (some ⟨some [("data", JVal.obj [("username", JVal.str "admin")])]⟩)

/-- Retry configuration whose initial backoff exceeds the cap. -/
def cfgUncapped : RetryConfig := ⟨50, 20, 2, 2⟩

/-- The exact rational three halves, in lowest terms. -/
def ratThreeHalves : Rat := ⟨3, 2, by decide, by decide⟩

/-- Retry configuration with the fractional multiplier three halves. -/
def cfgFrac : RetryConfig := ⟨5, 1000, ratThreeHalves, 3⟩

/-- The claim's example retry configuration: 10ms initial backoff (in
nanoseconds), multiplier 2, three retries, ample cap. -/
def cfgExample : RetryConfig := ⟨10000000, 1000000000, 2, 3⟩

/-- A fetch that fails on every attempt. -/
def attNone : Nat → Option String := fun _ => none

/-- A fetch that fails twice and succeeds on the third attempt. -/
def attThird : Nat → Option String := fun n => if n = 2 then some "data" else none

/-- A context that is never cancelled. -/
def cancNone : Nat → Bool := fun _ => false

/-- A live scheduler with one running job and an open results channel. -/
def schedLive : Scheduler := ⟨[("a", ⟨"a", true, false⟩)], false, false⟩

/-! ## Helper lemmas about the filesystem map -/

theorem fsGet_cons (kv : String × Entry) (t : FS) (q : String) :
    fsGet (kv :: t) q = if kv.1 = q then some kv.2 else fsGet t q := by
  by_cases h : kv.1 = q <;> simp [fsGet, List.find?_cons, h]

theorem fsErase_cons (kv : String × Entry) (t : FS) (p : String) :
    fsErase (kv :: t) p = if kv.1 = p then fsErase t p else kv :: fsErase t p := by
  by_cases h : kv.1 = p <;> simp [fsErase, List.filter_cons, h]

theorem fsGet_fsErase_self (fs : FS) (p : String) : fsGet (fsErase fs p) p = none := by
  induction fs with
  | nil => rfl
  | cons kv t ih =>
    rw [fsErase_cons]
    by_cases hk : kv.1 = p
    · rw [if_pos hk]; exact ih
    · rw [if_neg hk, fsGet_cons, if_neg hk]; exact ih

theorem fsGet_fsErase_ne (fs : FS) (p q : String) (h : q ≠ p) :
    fsGet (fsErase fs p) q = fsGet fs q := by
  induction fs with
  | nil => rfl
  | cons kv t ih =>
    rw [fsErase_cons]
    by_cases hk : kv.1 = p
    · rw [if_pos hk, ih, fsGet_cons, if_neg (by rw [hk]; exact fun he => h he.symm)]
    · rw [if_neg hk, fsGet_cons, fsGet_cons]
      by_cases hq : kv.1 = q
      · rw [if_pos hq, if_pos hq]
      · rw [if_neg hq, if_neg hq, ih]

theorem fsGet_fsSet_self (fs : FS) (p : String) (e : Entry) :
    fsGet (fsSet fs p e) p = some e := by
  rw [fsSet, fsGet_cons]
  exact if_pos rfl

theorem fsGet_fsSet_ne (fs : FS) (p q : String) (e : Entry) (h : q ≠ p) :
    fsGet (fsSet fs p e) q = fsGet fs q := by
  rw [fsSet, fsGet_cons, if_neg (fun he => h he.symm)]
  exact fsGet_fsErase_ne fs p q h

/-! ## Helper lemmas about strings -/

theorem strOfDataEq (a b : String) (h : a.data = b.data) : a = b := by
  cases a; cases b; exact congrArg String.mk (by simpa using h)

theorem strNeAppend (s t : String) (h : t.data ≠ []) : s ≠ s ++ t := by
  intro he
  have hd : s.data = s.data ++ t.data := by
    have := congrArg String.data he
    simpa [String.data_append] using this
  have : t.data = [] := by
    have hl := congrArg List.length hd
    simp at hl
    exact List.eq_nil_of_length_eq_zero hl
  exact h this

theorem path_ne_tmpName (cfg : FileConfig) (env : Env) : cfg.Path ≠ tmpName cfg env := by
  have h1 : tmpName cfg env = cfg.Path ++ (".tmp." ++ env.tmpSuffix) := by
    unfold tmpName
    apply strOfDataEq
    simp [String.data_append]
  rw [h1]
  apply strNeAppend
  simp [String.data_append]

/-! ## C4 and its path-validator lemma -/

theorem validatePath_none_specBadPath (p : String) (h : validatePath p = none) :
    specBadPath p = false := by
  unfold validatePath at h
  split_ifs at h with h1 h2 h3 h4 h5 h6 <;> try simp at h
  have h3a : strHasPref p "\\\\?\\" = false := by
    revert h3; cases strHasPref p "\\\\?\\" <;> simp
  have h3b : strHasPref p "\\\\.\\" = false := by
    revert h3; cases strHasPref p "\\\\.\\" <;> simp
  have h4a : strHasPref p "\\\\" = false := by
    revert h4; cases strHasPref p "\\\\" <;> simp
  have h5a : strHasPref p "/" = true := by
    revert h5; cases strHasPref p "/" <;> simp
  have h6a : strContains p ".." = false := by
    revert h6; cases strContains p ".." <;> simp
  simp [specBadPath, h1, h2, h3a, h3b, h4a, h5a, h6a]

/-- C4: a path that is empty, relative, dot-dot-containing, over-long, or in
a Windows extended, device or UNC form makes WriteFile return an error with
the filesystem completely unchanged. -/
theorem C4_writefile_rejects_unsafe_path (env : Env) (fs : FS) (cfg : FileConfig)
    (content : String) (h : specBadPath cfg.Path = true) :
    (WriteFile env fs cfg content).1 = fs ∧ (WriteFile env fs cfg content).2.isSome = true := by
  have hvp : validatePath cfg.Path ≠ none := by
    intro hn
    rw [validatePath_none_specBadPath cfg.Path hn] at h
    exact Bool.false_ne_true h
  unfold WriteFile
  split
  · exact ⟨rfl, rfl⟩
  · cases hv : validatePath cfg.Path with
    | none => exact absurd hv hvp
    | some e => simp [hv]

theorem C4_witness :
    specBadPath "/tmp/../etc/passwd" = true ∧
    (WriteFile envOkAll fsOneDir cfgTraversal "x").1 = fsOneDir ∧
    (WriteFile envOkAll fsOneDir cfgTraversal "x").2.isSome = true := by
  refine ⟨by decide, ?_⟩
  exact C4_writefile_rejects_unsafe_path envOkAll fsOneDir cfgTraversal "x" (by decide)

/-! ## C3: symlinks and special files are rejected untouched -/

/-- C3: when the target path holds a symbolic link or a special file,
WriteFile returns an error and leaves the filesystem exactly as it was, so
the link target is never modified. -/
theorem C3_writefile_rejects_symlink_special (env : Env) (fs : FS) (cfg : FileConfig)
    (content : String) (t : String)
    (h : fsGet fs cfg.Path = some (Entry.symlink t) ∨ fsGet fs cfg.Path = some Entry.special) :
    (WriteFile env fs cfg content).1 = fs ∧ (WriteFile env fs cfg content).2.isSome = true := by
  have hft : ∃ e, validateFileType fs cfg.Path = some e := by
    unfold validateFileType
    rcases h with h | h <;> rw [h] <;> exact ⟨_, rfl⟩
  obtain ⟨e, he⟩ := hft
  unfold WriteFile
  split
  · exact ⟨rfl, rfl⟩
  · cases hv : validatePath cfg.Path with
    | some e2 => simp [hv]
    | none => simp [hv, he]

theorem C3_witness :
    fsGet fsSymlink "/out/secret" = some (Entry.symlink "/etc/passwd") ∧
    (WriteFile envOkAll fsSymlink cfgTarget "x").1 = fsSymlink ∧
    (WriteFile envOkAll fsSymlink cfgTarget "x").2.isSome = true := by
  refine ⟨by decide, ?_⟩
  exact C3_writefile_rejects_symlink_special envOkAll fsSymlink cfgTarget "x" "/etc/passwd"
    (Or.inl (by decide))

/-! ## C5: the mode gate -/

theorem validateMode_none_iff (m : Nat) : validateMode m = none ↔ specModeRejected m = false := by
  unfold validateMode specModeRejected
  split_ifs with h1 h2 h3
  · simp [h1, bne_iff_ne]
  · simp [bne_iff_ne, h2.1, h2.2]
  · simp [h3]
  · have h1a : m &&& 0o777 &&& 0o002 = 0 := not_ne_iff.mp h1
    have h3a : ¬(m &&& 0o777 > 0o644) := h3
    rcases not_and_or.mp h2 with h2a | h2b
    · simp [h1a, not_ne_iff.mp h2a, h3a]
    · simp [h1a, not_ne_iff.mp h2b, h3a]

/-- C5: for every octal mode string that parses, ParseMode accepts the value
exactly when it is not world-writable, and not both group-writable and
world-readable, and not above the 0644 ceiling; otherwise ParseMode fails. -/
theorem C5_parsemode_exact_gate (s : String) (m : Nat) (hp : parseOctal32 s = some m) :
    (ParseMode s = some m ↔ specModeRejected m = false) ∧
    (ParseMode s = none ↔ specModeRejected m = true) := by
  have hs : s ≠ "" := by
    intro h
    rw [h] at hp
    simp [parseOctal32] at hp
  unfold ParseMode
  rw [if_neg hs, hp]
  cases hvm : validateMode m with
  | none =>
    have := (validateMode_none_iff m).mp hvm
    simp [hvm, this]
  | some e =>
    have hb : specModeRejected m = true := by
      cases hbv : specModeRejected m
      · exact absurd ((validateMode_none_iff m).mpr hbv) (by simp [hvm])
      · rfl
    simp [hvm, hb]

theorem C5_witness :
    parseOctal32 "0640" = some 0o640 ∧ ParseMode "0640" = some 0o640 ∧
    parseOctal32 "0755" = some 0o755 ∧ ParseMode "0755" = none := by
  refine ⟨by decide, ?_, by decide, ?_⟩
  · exact (C5_parsemode_exact_gate "0640" 0o640 (by decide)).1.mpr (by decide)
  · exact (C5_parsemode_exact_gate "0755" 0o755 (by decide)).2.mpr (by decide)

/-! ## C1: temp-file cleanup on failure -/

theorem ensureDir_fst (env : Env) (fs : FS) (dir : String) (h : fsGet fs dir ≠ none) :
    (ensureDir env fs dir).1 = fs := by
  unfold ensureDir
  split_ifs with h1 h2
  · rfl
  · cases hg : fsGet fs dir with
    | none => exact absurd hg h
    | some e => rfl
  · rfl

theorem renameStep_no_tmp (env : Env) (fs : FS) (tmp dst : String) (hne : tmp ≠ dst) :
    fsGet (renameStep env fs tmp dst).1 tmp = none := by
  unfold renameStep
  split_ifs with hr
  · cases hg : fsGet fs tmp with
    | some e =>
      simp only [hg]
      rw [fsGet_fsSet_ne _ _ _ _ hne]
      exact fsGet_fsErase_self _ _
    | none =>
      simp only [hg]
      exact fsGet_fsErase_self _ _
  · exact fsGet_fsErase_self _ _

/-- C1 (amended): whenever the content write to the temp file does not fail
midway after creating it, no file remains at the temp path once WriteFile
returns, whether it succeeded or failed: a chown or rename failure removes
the temp file before the error is returned, and success renames it onto the
target.  (The preconditions say no file sat at the temp path beforehand and
the parent directory already exists.) -/
theorem C1_no_temp_left_except_midwrite (env : Env) (fs : FS) (cfg : FileConfig)
    (content : String)
    (h1 : env.writeOutcome ≠ WriteOutcome.failAfterCreate)
    (h2 : fsGet fs (tmpName cfg env) = none)
    (h3 : fsGet fs (dirname cfg.Path) ≠ none) :
    fsGet (WriteFile env fs cfg content).1 (tmpName cfg env) = none := by
  unfold WriteFile
  split
  · exact h2
  · cases hv : validatePath cfg.Path with
    | some e => exact h2
    | none =>
      cases hft : validateFileType fs cfg.Path with
      | some e => exact h2
      | none =>
        cases hED : ensureDir env fs (dirname cfg.Path) with
        | mk fs1 o =>
        have hfs1 : fs1 = fs := by
          have hf := ensureDir_fst env fs (dirname cfg.Path) h3
          rwa [hED] at hf
        subst hfs1
        cases o with
        | some e => exact h2
        | none =>
          cases hwo : env.writeOutcome with
          | failNoCreate => exact h2
          | failAfterCreate => exact absurd hwo h1
          | ok =>
            split_ifs with hown hch
            · exact renameStep_no_tmp env _ _ _ (Ne.symm (path_ne_tmpName cfg env))
            · exact fsGet_fsErase_self _ _
            · exact renameStep_no_tmp env _ _ _ (Ne.symm (path_ne_tmpName cfg env))

theorem C1_counterexample :
    (WriteFile envFailAfter fsOneDir cfgTarget "x").2.isSome = true ∧
    fsGet (WriteFile envFailAfter fsOneDir cfgTarget "x").1 (tmpName cfgTarget envFailAfter) =
      some (Entry.regular "part" 0o600 0 0) := by
  decide

theorem C1_witness :
    envChownFail.writeOutcome ≠ WriteOutcome.failAfterCreate ∧
    fsGet fsOneDir (tmpName cfgOwned envChownFail) = none ∧
    fsGet fsOneDir (dirname cfgOwned.Path) ≠ none ∧
    (WriteFile envChownFail fsOneDir cfgOwned "x").2.isSome = true ∧
    fsGet (WriteFile envChownFail fsOneDir cfgOwned "x").1 (tmpName cfgOwned envChownFail) = none := by
  refine ⟨by decide, by decide, by decide, by decide, ?_⟩
  exact C1_no_temp_left_except_midwrite envChownFail fsOneDir cfgOwned "x"
    (by decide) (by decide) (by decide)

/-! ## C2: the sweep's glob pattern misses the writer's temp names -/

/-- C2: the writer's interrupted write of `/out/secret.conf` leaves the temp
file with a `.tmp.` infix and a random suffix, yet the startup sweep over
`/out` does not remove it (its glob `*.tmp` cannot match), while it does
remove an unrelated user file merely named with a `.tmp` ending; a second
sweep changes nothing.  This evaluates the code at the failing input of the
claim. -/
theorem C2_sweep_misses_writer_temps :
    tmpName cfgSweep envOkAll = "/out/secret.conf.tmp.a1b2c3d4" ∧
    fsGet fsSweep (tmpName cfgSweep envOkAll) = some (Entry.regular "s" 0o600 0 0) ∧
    fsGet (CleanupOrphanedTempFiles fsSweep ["/out"]) "/out/secret.conf.tmp.a1b2c3d4" =
      some (Entry.regular "s" 0o600 0 0) ∧
    fsGet (CleanupOrphanedTempFiles fsSweep ["/out"]) "/out/data.tmp" = none ∧
    CleanupOrphanedTempFiles (CleanupOrphanedTempFiles fsSweep ["/out"]) ["/out"] =
      CleanupOrphanedTempFiles fsSweep ["/out"] := by
  decide

/-! ## C6: empty per-secret namespace falls back to the store default -/

theorem C6_counterexample :
    secretNsEmpty.Namespace = "" ∧
    ResolveNamespace secretNsEmpty storeTeam.Namespace = "teamns" ∧
    ("teamns" : String) ≠ "" := by
  decide

/-- C6 (amended): the orchestrator resolves the effective namespace as the
per-secret namespace when it is non-empty and the store-wide default
otherwise; an empty per-secret namespace is indistinguishable from an unset
one and falls back to the store default.  The second part shows SyncSecret
consults its fetch dependency only at the resolved namespace. -/
theorem C6_namespace_resolution (s : Secret) (cfg : Config) (f g : FetchFn) :
    (ResolveNamespace s cfg.SecretStore.Namespace =
      if s.Namespace = "" then cfg.SecretStore.Namespace else s.Namespace) ∧
    (f s.MountPath s.Key s.KVVersion (ResolveNamespace s cfg.SecretStore.Namespace) =
        g s.MountPath s.Key s.KVVersion (ResolveNamespace s cfg.SecretStore.Namespace) →
      SyncSecret cfg s f = SyncSecret cfg s g) := by
  constructor
  · unfold ResolveNamespace
    by_cases h : s.Namespace = "" <;> simp [h]
  · intro hfg
    unfold SyncSecret
    simp only [hfg]

theorem C6_witness :
    fetchTeamA secretNsEmpty.MountPath secretNsEmpty.Key secretNsEmpty.KVVersion
        (ResolveNamespace secretNsEmpty cfgTeam.SecretStore.Namespace) =
      fetchTeamB secretNsEmpty.MountPath secretNsEmpty.Key secretNsEmpty.KVVersion
        (ResolveNamespace secretNsEmpty cfgTeam.SecretStore.Namespace) ∧
    SyncSecret cfgTeam secretNsEmpty fetchTeamA = SyncSecret cfgTeam secretNsEmpty fetchTeamB := by
  refine ⟨rfl, ?_⟩
  exact (C6_namespace_resolution secretNsEmpty cfgTeam fetchTeamA fetchTeamB).2 rfl

/-! ## C10: Stop stops every job but does not close the results channel -/

theorem C10_counterexample :
    schedLive.resultsClosed = false ∧
    (Scheduler.Stop schedLive).1.stopChClosed = true ∧
    (Scheduler.Stop schedLive).1.resultsClosed = false := by
  decide

/-- C10 (amended): Stop closes the scheduler stop channel, empties the job
table and stops every job (each stopped job's ticker is inactive, its stop
channel closed, and it can never fire again), but it leaves the results
channel exactly as it was, so it does not close the result stream. -/
theorem C10_stop_behaviour (s : Scheduler) :
    (Scheduler.Stop s).1.jobs = [] ∧
    (Scheduler.Stop s).1.stopChClosed = true ∧
    (∀ j ∈ (Scheduler.Stop s).2,
      j.tickerActive = false ∧ j.stopChClosed = true ∧
        Scheduler.canFire (Scheduler.Stop s).1 j = false) ∧
    (Scheduler.Stop s).1.resultsClosed = s.resultsClosed := by
  refine ⟨rfl, rfl, ?_, rfl⟩
  intro j hj
  unfold Scheduler.Stop at hj
  simp only [List.mem_map] at hj
  obtain ⟨kv, _, hkv⟩ := hj
  subst hkv
  exact ⟨rfl, rfl, rfl⟩

theorem C10_witness :
    (⟨"a", false, true⟩ : SJob) ∈ (Scheduler.Stop schedLive).2 ∧
    Scheduler.canFire (Scheduler.Stop schedLive).1 ⟨"a", false, true⟩ = false := by
  refine ⟨by decide, ?_⟩
  exact ((C10_stop_behaviour schedLive).2.2.1 ⟨"a", false, true⟩ (by decide)).2.2

/-! ## C7: positional template-to-file mapping -/

theorem insertSorted_length (x : String) :
    ∀ l : List String, (insertSorted x l).length = l.length + 1 := by
  intro l
  induction l with
  | nil => rfl
  | cons y rest ih =>
    unfold insertSorted
    split_ifs
    · rfl
    · simpa using ih

theorem sortStrings_length (l : List String) : (sortStrings l).length = l.length := by
  induction l with
  | nil => rfl
  | cons a t ih =>
    show (insertSorted a (sortStrings t)).length = t.length + 1
    rw [insertSorted_length, ih]

theorem addTemplates_length :
    ∀ (l : List (String × String)) (parsed : List (String × List TmplPart)),
    addTemplates l = some parsed → parsed.length = l.length := by
  intro l
  induction l with
  | nil => intro parsed h; cases h; rfl
  | cons nt rest ih =>
    intro parsed h
    unfold addTemplates at h
    cases hp : parseTmpl nt.2 with
    | none => rw [hp] at h; exact absurd h (by simp)
    | some parts =>
      rw [hp] at h
      cases hr : addTemplates rest with
      | none => rw [hr] at h; exact absurd h (by simp)
      | some acc =>
        rw [hr] at h
        cases h
        simpa using ih acc hr

theorem writeFiles_ok (names : List String) (rendered : List (String × String)) :
    ∀ (files : List File) (i0 : Nat),
    (∀ f ∈ files,
      (ParseMode f.Mode).isSome ∧ (ParseOwner f.Owner).isSome ∧ (ParseOwner f.Group).isSome) →
    (writeFiles names rendered files i0).2 = none ∧
    ∀ j, j < files.length →
      (writeFiles names rendered files i0).1.get? j =
        some ((files.getD j ⟨"", "", "", ""⟩).Path,
          if i0 + j < names.length then (lookupStr rendered (names.getD (i0 + j) "")).getD ""
          else "") := by
  intro files
  induction files with
  | nil =>
    intro i0 _
    exact ⟨rfl, fun j hj => absurd hj (by simp)⟩
  | cons f rest ih =>
    intro i0 h
    obtain ⟨hm, ho, hg⟩ := h f (List.mem_cons_self f rest)
    obtain ⟨mv, hmv⟩ := Option.isSome_iff_exists.mp hm
    obtain ⟨ov, hov⟩ := Option.isSome_iff_exists.mp ho
    obtain ⟨gv, hgv⟩ := Option.isSome_iff_exists.mp hg
    have hrest := ih (i0 + 1) (fun f2 hf2 => h f2 (List.mem_cons_of_mem f hf2))
    constructor
    · simp only [writeFiles, hmv, hov, hgv]
      exact hrest.1
    · intro j hj
      simp only [writeFiles, hmv, hov, hgv]
      cases j with
      | zero =>
        simp [List.get?_cons_zero, List.getD_cons_zero]
      | succ j2 =>
        have hj2 : j2 < rest.length := by simpa using hj
        have hr := hrest.2 j2 hj2
        rw [List.get?_cons_succ, hr, List.getD_cons_succ]
        have harith : i0 + 1 + j2 = i0 + (j2 + 1) := by omega
        rw [harith]

/-- C7: when every template parses, the fetch succeeds and the per-file
attribute strings are valid, a secret whose template count equals its file
count is synced with no error, and the i-th file in configured order is
written with the rendered value of the i-th template name in sorted order;
when the rendered-template count (one per registered template) differs from
the file count, the sync fails having written no file. -/
theorem C7_sorted_positional_writes (cfg : Config) (secret : Secret) (fetch : FetchFn)
    (data : List (String × String)) (parsed : List (String × List TmplPart))
    (c : CredentialSet)
    (hc : GetCredentials cfg.SecretStore (ResolveCredentials secret) = some c)
    (hf : fetch secret.MountPath secret.Key secret.KVVersion
        (ResolveNamespace secret cfg.SecretStore.Namespace) = Except.ok data)
    (hp : addTemplates secret.Template = some parsed)
    (hfiles : ∀ f ∈ secret.Files,
      (ParseMode f.Mode).isSome ∧ (ParseOwner f.Owner).isSome ∧ (ParseOwner f.Group).isSome) :
    (secret.Template.length = secret.Files.length →
      (SyncSecret cfg secret fetch).2 = none ∧
      ∀ i, i < secret.Files.length →
        (SyncSecret cfg secret fetch).1.get? i =
          some ((secret.Files.getD i ⟨"", "", "", ""⟩).Path,
            (lookupStr (parsed.map (fun nt => (nt.1, renderParts nt.2 data)))
              ((sortStrings (secret.Template.map (·.1))).getD i "")).getD "")) ∧
    (secret.Template.length ≠ secret.Files.length →
      (SyncSecret cfg secret fetch).1 = [] ∧ (SyncSecret cfg secret fetch).2.isSome = true) := by
  have hplen : parsed.length = secret.Template.length := addTemplates_length _ _ hp
  have hrendlen : (parsed.map (fun nt => (nt.1, renderParts nt.2 data))).length =
      secret.Template.length := by simpa using hplen
  have hnames : (sortStrings (secret.Template.map (·.1))).length = secret.Template.length := by
    rw [sortStrings_length]
    simp
  unfold SyncSecret
  simp only [hc, hf, hp]
  constructor
  · intro hlen
    rw [if_neg (by rw [hrendlen]; simpa using hlen)]
    have hw := writeFiles_ok (sortStrings (secret.Template.map (·.1)))
      (parsed.map (fun nt => (nt.1, renderParts nt.2 data))) secret.Files 0 hfiles
    refine ⟨hw.1, ?_⟩
    intro i hi
    have := hw.2 i hi
    rw [this]
    rw [if_pos (by rw [Nat.zero_add, hnames, hlen]; exact hi)]
    rw [Nat.zero_add]
  · intro hlen
    rw [if_pos (by rw [hrendlen]; simpa using hlen)]
    exact ⟨rfl, rfl⟩

theorem C7_witness :
    GetCredentials cfgPlain.SecretStore (ResolveCredentials secretPair) =
      some (GetDefaultCredentials cfgPlain.SecretStore) ∧
    addTemplates secretPair.Template = some parsedPair ∧
    secretPair.Template.length = secretPair.Files.length ∧
    (SyncSecret cfgPlain secretPair fetchPair).2 = none ∧
    (SyncSecret cfgPlain secretPair fetchPair).1.get? 0 = some ("/out/f1", "1") ∧
    (SyncSecret cfgPlain secretPair fetchPair).1.get? 1 = some ("/out/f2", "2") := by
  have h := C7_sorted_positional_writes cfgPlain secretPair fetchPair
    [("x", "1"), ("y", "2")] parsedPair (GetDefaultCredentials cfgPlain.SecretStore)
    (by decide) rfl (by decide) (by decide)
  have hlen : secretPair.Template.length = secretPair.Files.length := by decide
  have h1 := h.1 hlen
  refine ⟨by decide, by decide, hlen, h1.1, ?_, ?_⟩
  · have h0 := h1.2 0 (by decide)
    rw [h0]
    decide
  · have h2 := h1.2 1 (by decide)
    rw [h2]
    decide

/-! ## C8: KV read-path construction and response-shape errors

The lemmas below show that Go's lexical path cleaning is the identity on a
join of clean relative paths, so the v2 read path is literally
`mount/data/key` and the v1 read path `mount/key`. -/

theorem splitSegs_ne_nil : ∀ l : List Char, splitSegs l ≠ [] := by
  intro l
  cases l with
  | nil => simp [splitSegs]
  | cons c cs =>
    unfold splitSegs
    split_ifs
    · simp
    · cases splitSegs cs <;> simp

theorem splitSegs_cons_slash (cs : List Char) :
    splitSegs ('/' :: cs) = [] :: splitSegs cs := by
  simp [splitSegs]

theorem splitSegs_cons_ne (c : Char) (cs : List Char) (hc : c ≠ '/')
    (s : List Char) (rest : List (List Char)) (hs : splitSegs cs = s :: rest) :
    splitSegs (c :: cs) = (c :: s) :: rest := by
  simp [splitSegs, hc, hs]

theorem splitSegs_append_slash :
    ∀ a b : List Char, splitSegs (a ++ '/' :: b) = splitSegs a ++ splitSegs b := by
  intro a b
  induction a with
  | nil => simp [splitSegs]
  | cons c cs ih =>
    by_cases hc : c = '/'
    · subst hc
      rw [List.cons_append, splitSegs_cons_slash, splitSegs_cons_slash, ih]
      rfl
    · rw [List.cons_append]
      cases hs : splitSegs cs with
      | nil => exact absurd hs (splitSegs_ne_nil cs)
      | cons s rest =>
        have h1 : splitSegs (cs ++ '/' :: b) = s :: (rest ++ splitSegs b) := by
          rw [ih, hs]; rfl
        rw [splitSegs_cons_ne c _ hc _ _ h1, splitSegs_cons_ne c cs hc s rest hs]
        rfl

theorem joinSegs_cons (x : List Char) (L : List (List Char)) (h : L ≠ []) :
    joinSegs (x :: L) = x ++ '/' :: joinSegs L := by
  cases L with
  | nil => exact absurd rfl h
  | cons y rest => rfl

theorem joinSegs_splitSegs : ∀ l : List Char, joinSegs (splitSegs l) = l := by
  intro l
  induction l with
  | nil => rfl
  | cons c cs ih =>
    by_cases hc : c = '/'
    · subst hc
      show joinSegs (splitSegs ('/' :: cs)) = _
      unfold splitSegs
      rw [if_pos rfl, joinSegs_cons [] (splitSegs cs) (splitSegs_ne_nil cs), ih]
      rfl
    · show joinSegs (splitSegs (c :: cs)) = _
      unfold splitSegs
      rw [if_neg hc]
      cases hs : splitSegs cs with
      | nil => exact absurd hs (splitSegs_ne_nil cs)
      | cons s rest =>
        rw [hs] at ih
        cases rest with
        | nil => simpa [joinSegs] using congrArg (c :: ·) ih
        | cons s2 rest2 =>
          rw [joinSegs_cons s (s2 :: rest2) (by simp)] at ih
          rw [joinSegs_cons (c :: s) (s2 :: rest2) (by simp)]
          rw [← ih]
          rfl

theorem cleanCore_of_clean (rooted : Bool) :
    ∀ (l acc : List (List Char)),
    (∀ seg ∈ l, seg ≠ [] ∧ seg ≠ ['.'] ∧ seg ≠ ['.', '.']) →
    cleanCore rooted acc l = acc.reverse ++ l := by
  intro l
  induction l with
  | nil => intro acc _; simp [cleanCore]
  | cons seg rest ih =>
    intro acc h
    obtain ⟨h1, h2, h3⟩ := h seg (List.mem_cons_self seg rest)
    unfold cleanCore
    rw [if_neg (by rintro (h | h) <;> [exact h1 h; exact h2 h])]
    rw [if_neg h3]
    rw [ih (seg :: acc) (fun s hs => h s (List.mem_cons_of_mem seg hs))]
    simp

theorem cleanRelPath_segs (s : String) (h : cleanRelPath s = true) :
    ∀ seg ∈ splitSegs s.data, seg ≠ [] ∧ seg ≠ ['.'] ∧ seg ≠ ['.', '.'] := by
  intro seg hseg
  unfold cleanRelPath at h
  rw [List.all_eq_true] at h
  have hthis := h seg hseg
  refine ⟨?_, ?_, ?_⟩ <;> intro he <;> subst he <;> simp at hthis

theorem cleanRelPath_data_ne_nil (s : String) (h : cleanRelPath s = true) : s.data ≠ [] := by
  intro hnil
  have := cleanRelPath_segs s h [] (by rw [hnil]; simp [splitSegs])
  exact this.1 rfl

theorem cleanRelPath_head (s : String) (h : cleanRelPath s = true) :
    s.data.head? ≠ some '/' := by
  intro hh
  cases hd : s.data with
  | nil => rw [hd] at hh; exact Option.noConfusion hh
  | cons c cs =>
    rw [hd] at hh
    have hc : c = '/' := by simpa using hh
    subst hc
    have hmem : ([] : List Char) ∈ splitSegs s.data := by
      rw [hd]
      unfold splitSegs
      rw [if_pos rfl]
      exact List.mem_cons_self _ _
    exact (cleanRelPath_segs s h [] hmem).1 rfl

theorem pathClean_of_clean (s : String)
    (hs : ∀ seg ∈ splitSegs s.data, seg ≠ [] ∧ seg ≠ ['.'] ∧ seg ≠ ['.', '.'])
    (hhd : s.data.head? ≠ some '/') (hne : s.data ≠ []) : pathClean s = s := by
  unfold pathClean
  rw [if_neg (by intro he; exact hne (by rw [he]))]
  simp only []
  rw [cleanCore_of_clean _ _ [] hs]
  simp only [List.reverse_nil, List.nil_append]
  rw [if_neg hhd, if_neg (splitSegs_ne_nil s.data), joinSegs_splitSegs]

theorem cleanRelPath_append (a b : String) (ha : cleanRelPath a = true)
    (hb : cleanRelPath b = true) : cleanRelPath (a ++ "/" ++ b) = true := by
  unfold cleanRelPath
  rw [List.all_eq_true]
  intro seg hseg
  have hdata : (a ++ "/" ++ b).data = a.data ++ '/' :: b.data := by
    simp [String.data_append]
  rw [hdata, splitSegs_append_slash] at hseg
  have hgood : seg ≠ [] ∧ seg ≠ ['.'] ∧ seg ≠ ['.', '.'] := by
    rcases List.mem_append.mp hseg with h | h
    · exact cleanRelPath_segs a ha seg h
    · exact cleanRelPath_segs b hb seg h
  obtain ⟨h1, h2, h3⟩ := hgood
  cases seg with
  | nil => exact absurd rfl h1
  | cons c cs =>
    simp only [Bool.and_eq_true, Bool.not_eq_true', beq_eq_false_iff_ne]
    exact ⟨⟨rfl, h2⟩, h3⟩

theorem head_append_clean (a b : String) (ha : cleanRelPath a = true) :
    (a.data ++ '/' :: b.data).head? ≠ some '/' := by
  cases hmd : a.data with
  | nil => exact absurd (by rw [hmd]) (cleanRelPath_data_ne_nil a ha)
  | cons c cs =>
    intro hh
    have hc : c = '/' := by simpa using hh
    subst hc
    exact cleanRelPath_head a ha (by rw [hmd]; rfl)

theorem pathClean_append_clean (a b : String) (ha : cleanRelPath a = true)
    (hb : cleanRelPath b = true) : pathClean (a ++ "/" ++ b) = a ++ "/" ++ b := by
  have hdata : (a ++ "/" ++ b).data = a.data ++ '/' :: b.data := by
    simp [String.data_append]
  apply pathClean_of_clean
  · intro seg hseg
    rw [hdata, splitSegs_append_slash] at hseg
    rcases List.mem_append.mp hseg with h | h
    · exact cleanRelPath_segs a ha seg h
    · exact cleanRelPath_segs b hb seg h
  · rw [hdata]
    exact head_append_clean a b ha
  · rw [hdata]
    simp

theorem pathJoin_pair (a b : String) (ha : cleanRelPath a = true)
    (hb : cleanRelPath b = true) : pathJoin [a, b] = a ++ "/" ++ b := by
  have hane : a ≠ "" := fun he => cleanRelPath_data_ne_nil a ha (by rw [he])
  have h1 : pathJoin [a, b] = pathClean (a ++ "/" ++ b) := by
    simp [pathJoin, hane, strJoin]
  rw [h1, pathClean_append_clean a b ha hb]

theorem pathJoin_triple (a b c : String) (ha : cleanRelPath a = true)
    (hb : cleanRelPath b = true) (hc : cleanRelPath c = true) :
    pathJoin [a, b, c] = a ++ "/" ++ (b ++ "/" ++ c) := by
  have hane : a ≠ "" := fun he => cleanRelPath_data_ne_nil a ha (by rw [he])
  have h1 : pathJoin [a, b, c] = pathClean (a ++ "/" ++ (b ++ "/" ++ c)) := by
    simp [pathJoin, hane, strJoin]
  rw [h1, pathClean_append_clean a (b ++ "/" ++ c) ha (cleanRelPath_append b c hb hc)]

/-- C8: the KV v2 read path is `mount/data/key` and the v1 read path is
`mount/key`; a read error, a nil response, a response without data, and a v2
response whose `data` member is missing or not a string-keyed object each
make FetchSecret return an error; the v2 nested object or the v1 top-level
map is returned whole otherwise — never a partial or empty field map in an
error case. -/
theorem C8_fetch_behaviour (read : String → Except String (Option ApiSecret))
    (m p kv : String) (hm : cleanRelPath m = true) (hp : cleanRelPath p = true) :
    (fetchReadPath m p "v2" = m ++ "/data/" ++ p) ∧
    (kv ≠ "v2" → fetchReadPath m p kv = m ++ "/" ++ p) ∧
    (∀ e, read (fetchReadPath m p kv) = Except.error e →
      FetchSecret read m p kv = Except.error ("failed to read secret: " ++ e)) ∧
    (read (fetchReadPath m p kv) = Except.ok none →
      FetchSecret read m p kv = Except.error ("secret not found at path: " ++ p)) ∧
    (∀ sec, read (fetchReadPath m p kv) = Except.ok (some sec) → sec.Data = none →
      FetchSecret read m p kv = Except.error "secret has no data") ∧
    (∀ sec d flds, read (fetchReadPath m p "v2") = Except.ok (some sec) → sec.Data = some d →
      lookupStr d "data" = some (JVal.obj flds) →
      FetchSecret read m p "v2" = Except.ok flds) ∧
    (∀ sec d, read (fetchReadPath m p "v2") = Except.ok (some sec) → sec.Data = some d →
      (∀ flds, lookupStr d "data" ≠ some (JVal.obj flds)) →
      FetchSecret read m p "v2" = Except.error "invalid secret data format for KV v2") ∧
    (∀ sec d, read (fetchReadPath m p kv) = Except.ok (some sec) → sec.Data = some d →
      kv ≠ "v2" → FetchSecret read m p kv = Except.ok d) := by
  have hv2 : fetchReadPath m p "v2" = m ++ "/data/" ++ p := by
    unfold fetchReadPath
    rw [if_pos rfl, pathJoin_triple m "data" p hm (by decide) hp]
    apply strOfDataEq
    simp [String.data_append]
  refine ⟨hv2, ?_, ?_, ?_, ?_, ?_, ?_, ?_⟩
  · intro hkv
    unfold fetchReadPath
    rw [if_neg hkv, pathJoin_pair m p hm hp]
  · intro e he
    unfold FetchSecret
    rw [he]
  · intro he
    unfold FetchSecret
    rw [he]
  · intro sec hre hd
    unfold FetchSecret
    rw [hre]
    simp [hd]
  · intro sec d flds hre hd hl
    unfold FetchSecret
    rw [hre]
    simp [hd, hl]
  · intro sec d hre hd hl
    unfold FetchSecret
    rw [hre]
    cases hlk : lookupStr d "data" with
    | none => simp [hd, hlk]
    | some v =>
      cases v with
      | str vs => simp [hd, hlk]
      | obj flds => exact absurd hlk (hl flds)
      | other => simp [hd, hlk]
  · intro sec d hre hd hkv
    unfold FetchSecret
    rw [hre]
    simp only [hd]
    rw [if_neg hkv]

theorem C8_witness :
    cleanRelPath "secret" = true ∧ cleanRelPath "app" = true ∧
    fetchReadPath "secret" "app" "v2" = "secret/data/app" ∧
    FetchSecret readKV "secret" "app" "v2" = Except.ok [("username", JVal.str "admin")] := by
  have h := C8_fetch_behaviour readKV "secret" "app" "v2" (by decide) (by decide)
  refine ⟨by decide, by decide, ?_, ?_⟩
  · rw [h.1]
    rfl
  · exact h.2.2.2.2.2.1 ⟨some [("data", JVal.obj [("username", JVal.str "admin")])]⟩
      [("data", JVal.obj [("username", JVal.str "admin")])]
      [("username", JVal.str "admin")] rfl rfl rfl

/-! ## C9: retry count, backoff sequence, cancellation and success -/

theorem nextBackoff_natMul (cfg : RetryConfig) (m : Nat) (hm : cfg.Multiplier = (m : Rat))
    (b : Nat) :
    nextBackoff cfg b = if b * m > cfg.MaxBackoff then cfg.MaxBackoff else b * m := by
  unfold nextBackoff
  rw [hm, Rat.num_natCast, Rat.den_natCast]
  have h1 : ((b : Int) * (m : Int)).fdiv ((1 : Nat) : Int) = ((b * m : Nat) : Int) := by
    rw [Nat.cast_one, Int.fdiv_one]
    push_cast
    ring
  rw [h1, Int.toNat_natCast]

theorem iterate_nextBackoff (cfg : RetryConfig) (m : Nat) (hm : cfg.Multiplier = (m : Rat))
    (hm1 : 1 ≤ m) :
    ∀ (j b : Nat), b ≤ cfg.MaxBackoff →
      (nextBackoff cfg)^[j] b = min (b * m ^ j) cfg.MaxBackoff := by
  intro j
  induction j with
  | zero =>
    intro b hb
    simp [Nat.min_eq_left hb]
  | succ j ih =>
    intro b hb
    rw [Function.iterate_succ_apply', ih b hb, nextBackoff_natMul cfg m hm]
    by_cases hc : b * m ^ j ≤ cfg.MaxBackoff
    · rw [Nat.min_eq_left hc]
      have he : b * m ^ j * m = b * m ^ (j + 1) := by ring
      rw [he]
      by_cases h2 : b * m ^ (j + 1) > cfg.MaxBackoff
      · rw [if_pos h2, Nat.min_eq_right (le_of_lt h2)]
      · rw [if_neg h2, Nat.min_eq_left (not_lt.mp h2)]
    · push_neg at hc
      rw [Nat.min_eq_right (le_of_lt hc)]
      have hstep : b * m ^ j ≤ b * m ^ (j + 1) := by
        have : m ^ j ≤ m ^ (j + 1) := Nat.pow_le_pow_right (by omega) (by omega)
        exact Nat.mul_le_mul_left b this
      have hbig : cfg.MaxBackoff ≤ b * m ^ (j + 1) := le_trans (le_of_lt hc) hstep
      rw [Nat.min_eq_right hbig]
      by_cases h3 : cfg.MaxBackoff * m > cfg.MaxBackoff
      · rw [if_pos h3]
      · rw [if_neg h3]
        have h4 : cfg.MaxBackoff ≤ cfg.MaxBackoff * m :=
          Nat.le_mul_of_pos_right _ (by omega)
        exact le_antisymm (not_lt.mp h3) h4

theorem retryFrom_attempts_le {α : Type} (att : Nat → Option α) (canc : Nat → Bool)
    (cfg : RetryConfig) :
    ∀ (fuel attempt b : Nat), (retryFrom att canc cfg attempt b fuel).attemptsMade ≤ fuel := by
  intro fuel
  induction fuel with
  | zero => intro attempt b; simp [retryFrom]
  | succ fuel ih =>
    intro attempt b
    simp only [retryFrom]
    cases att attempt with
    | some d => simp
    | none =>
      simp only []
      split_ifs with h1 h2
      · simp
      · simp
      · have := ih (attempt + 1) (nextBackoff cfg b)
        simp only []
        omega

theorem retryFrom_waits_iter {α : Type} (att : Nat → Option α) (canc : Nat → Bool)
    (cfg : RetryConfig) :
    ∀ (fuel attempt b j : Nat) (w : Nat),
      (retryFrom att canc cfg attempt b fuel).waits.get? j = some w →
      w = (nextBackoff cfg)^[j] b := by
  intro fuel
  induction fuel with
  | zero => intro attempt b j w h; simp [retryFrom] at h
  | succ fuel ih =>
    intro attempt b j w h
    simp only [retryFrom] at h
    cases hA : att attempt with
    | some d => rw [hA] at h; simp at h
    | none =>
      rw [hA] at h
      simp only [] at h
      split_ifs at h with h1 h2
      · simp at h
      · simp at h
      · cases j with
        | zero =>
          simp only [List.get?_cons_zero, Option.some.injEq] at h
          rw [← h]
          rfl
        | succ j2 =>
          simp only [List.get?_cons_succ] at h
          rw [ih (attempt + 1) (nextBackoff cfg b) j2 w h, Function.iterate_succ_apply]

theorem retryFrom_success {α : Type} (att : Nat → Option α) (canc : Nat → Bool)
    (cfg : RetryConfig) (d : α) :
    ∀ (n attempt b fuel : Nat), n + 1 ≤ fuel →
    (∀ i, i < n → att (attempt + i) = none) → att (attempt + n) = some d →
    (∀ i, 1 ≤ i → i ≤ n → canc (attempt + i) = false) →
    retryFrom att canc cfg attempt b fuel =
      ⟨RetryResult.success d, (List.range n).map (fun j => (nextBackoff cfg)^[j] b), n + 1⟩ := by
  intro n
  induction n with
  | zero =>
    intro attempt b fuel hf h0 hn hc
    obtain ⟨fuel2, rfl⟩ : ∃ f2, fuel = f2 + 1 := ⟨fuel - 1, by omega⟩
    simp only [retryFrom]
    rw [show attempt + 0 = attempt from rfl] at hn
    rw [hn]
    simp
  | succ n ih =>
    intro attempt b fuel hf h0 hn hc
    obtain ⟨fuel2, rfl⟩ : ∃ f2, fuel = f2 + 1 := ⟨fuel - 1, by omega⟩
    simp only [retryFrom]
    have hA : att attempt = none := by
      have := h0 0 (by omega)
      simpa using this
    rw [hA]
    simp only []
    rw [if_neg (by omega : ¬fuel2 = 0)]
    have hcanc : canc (attempt + 1) = false := hc 1 (le_refl 1) (by omega)
    rw [hcanc]
    simp only [Bool.false_eq_true, if_false]
    have hrec := ih (attempt + 1) (nextBackoff cfg b) fuel2 (by omega)
      (fun i hi => by
        have := h0 (i + 1) (by omega)
        rwa [show attempt + (i + 1) = attempt + 1 + i by omega] at this)
      (by
        have := hn
        rwa [show attempt + (n + 1) = attempt + 1 + n by omega] at this)
      (fun i h1i hin => by
        have := hc (i + 1) (by omega) (by omega)
        rwa [show attempt + (i + 1) = attempt + 1 + i by omega] at this)
    rw [hrec]
    have hw : (List.range (n + 1)).map (fun j => (nextBackoff cfg)^[j] b) =
        b :: (List.range n).map (fun j => (nextBackoff cfg)^[j] (nextBackoff cfg b)) := by
      rw [List.range_succ_eq_map, List.map_cons, List.map_map]
      refine congrArg₂ (· :: ·) rfl ?_
      exact List.map_congr_left
        (fun j _ => Function.iterate_succ_apply (nextBackoff cfg) j b)
    rw [hw]

theorem retryFrom_cancel {α : Type} (att : Nat → Option α) (canc : Nat → Bool)
    (cfg : RetryConfig) :
    ∀ (k attempt b fuel : Nat), k + 2 ≤ fuel →
    (∀ i, i ≤ k → att (attempt + i) = none) →
    (∀ i, 1 ≤ i → i ≤ k → canc (attempt + i) = false) →
    canc (attempt + k + 1) = true →
    retryFrom att canc cfg attempt b fuel =
      ⟨(RetryResult.cancelled : RetryResult α),
        (List.range k).map (fun j => (nextBackoff cfg)^[j] b), k + 1⟩ := by
  intro k
  induction k with
  | zero =>
    intro attempt b fuel hf h0 hcf hct
    obtain ⟨fuel2, rfl⟩ : ∃ f2, fuel = f2 + 1 := ⟨fuel - 1, by omega⟩
    simp only [retryFrom]
    have hA : att attempt = none := by simpa using h0 0 (le_refl 0)
    rw [hA]
    simp only []
    rw [if_neg (by omega : ¬fuel2 = 0)]
    have hc1 : canc (attempt + 1) = true := by simpa using hct
    rw [hc1]
    simp [List.range_zero]
  | succ k ih =>
    intro attempt b fuel hf h0 hcf hct
    obtain ⟨fuel2, rfl⟩ : ∃ f2, fuel = f2 + 1 := ⟨fuel - 1, by omega⟩
    simp only [retryFrom]
    have hA : att attempt = none := by simpa using h0 0 (by omega)
    rw [hA]
    simp only []
    rw [if_neg (by omega : ¬fuel2 = 0)]
    have hc1 : canc (attempt + 1) = false := hcf 1 (le_refl 1) (by omega)
    rw [hc1]
    simp only [Bool.false_eq_true, if_false]
    have hrec := ih (attempt + 1) (nextBackoff cfg b) fuel2 (by omega)
      (fun i hi => by
        have := h0 (i + 1) (by omega)
        rwa [show attempt + (i + 1) = attempt + 1 + i by omega] at this)
      (fun i h1i hik => by
        have := hcf (i + 1) (by omega) (by omega)
        rwa [show attempt + (i + 1) = attempt + 1 + i by omega] at this)
      (by
        have := hct
        rwa [show attempt + (k + 1) + 1 = attempt + 1 + k + 1 by omega] at this)
    rw [hrec]
    have hw : (List.range (k + 1)).map (fun j => (nextBackoff cfg)^[j] b) =
        b :: (List.range k).map (fun j => (nextBackoff cfg)^[j] (nextBackoff cfg b)) := by
      rw [List.range_succ_eq_map, List.map_cons, List.map_map]
      refine congrArg₂ (· :: ·) rfl ?_
      exact List.map_congr_left
        (fun j _ => Function.iterate_succ_apply (nextBackoff cfg) j b)
    rw [hw]

/-- C9 (amended): the retried fetch makes at most MaxRetries + 1 attempts;
when the multiplier is an integral factor at least one and the initial
backoff does not exceed the cap, every wait performed equals
`min(initialBackoff * multiplier ^ attempt, maxBackoff)`; a context
cancellation observed at the wait before attempt k + 1 (all earlier attempts
having failed without cancellation) ends the call with a cancellation result
after exactly k + 1 attempts and no further ones; and the first successful
attempt's data is returned, after exactly one wait per preceding failure. -/
theorem C9_retry_behaviour {α : Type} (att : Nat → Option α) (canc : Nat → Bool)
    (cfg : RetryConfig) (m : Nat) (hm : cfg.Multiplier = (m : Rat)) (hm1 : 1 ≤ m)
    (hle : cfg.InitialBackoff ≤ cfg.MaxBackoff) :
    (FetchSecretWithRetry att canc cfg).attemptsMade ≤ cfg.MaxRetries + 1 ∧
    (∀ j w, (FetchSecretWithRetry att canc cfg).waits.get? j = some w →
      w = min (cfg.InitialBackoff * m ^ j) cfg.MaxBackoff) ∧
    (∀ k, k < cfg.MaxRetries → (∀ i, i ≤ k → att i = none) →
      (∀ i, 1 ≤ i → i ≤ k → canc i = false) → canc (k + 1) = true →
      (FetchSecretWithRetry att canc cfg).result = RetryResult.cancelled ∧
      (FetchSecretWithRetry att canc cfg).attemptsMade = k + 1) ∧
    (∀ n d, n ≤ cfg.MaxRetries → (∀ i, i < n → att i = none) → att n = some d →
      (∀ i, 1 ≤ i → i ≤ n → canc i = false) →
      (FetchSecretWithRetry att canc cfg).result = RetryResult.success d ∧
      (FetchSecretWithRetry att canc cfg).attemptsMade = n + 1 ∧
      (FetchSecretWithRetry att canc cfg).waits.length = n) := by
  refine ⟨?_, ?_, ?_, ?_⟩
  · exact retryFrom_attempts_le att canc cfg (cfg.MaxRetries + 1) 0 cfg.InitialBackoff
  · intro j w h
    have h1 := retryFrom_waits_iter att canc cfg (cfg.MaxRetries + 1) 0 cfg.InitialBackoff j w h
    rw [h1, iterate_nextBackoff cfg m hm hm1 j cfg.InitialBackoff hle]
  · intro k hk h0 hcf hct
    have h1 := retryFrom_cancel att canc cfg k 0 cfg.InitialBackoff (cfg.MaxRetries + 1)
      (by omega) (fun i hi => by simpa using h0 i hi)
      (fun i h1i hik => by simpa using hcf i h1i hik)
      (by simpa using hct)
    unfold FetchSecretWithRetry
    rw [h1]
    exact ⟨rfl, rfl⟩
  · intro n d hn h0 hs hcf
    have h1 := retryFrom_success att canc cfg d n 0 cfg.InitialBackoff (cfg.MaxRetries + 1)
      (by omega) (fun i hi => by simpa using h0 i hi) (by simpa using hs)
      (fun i h1i hin => by simpa using hcf i h1i hin)
    unfold FetchSecretWithRetry
    rw [h1]
    exact ⟨rfl, rfl, by simp⟩

/-- C9 counterexample to the claim as stated: with an initial backoff above
the cap (50 over 20, multiplier 2) the first wait is the uncapped 50, not
`min(50 * 2 ^ 0, 20) = 20`; and with the fractional multiplier three halves
the third wait is 10 (truncation applied at every step), not the 11 given by
`min(floor(5 * (3/2) ^ 2), 1000)`. -/
theorem C9_counterexample :
    (FetchSecretWithRetry attNone cancNone cfgUncapped).waits = [50, 20] ∧
    min (cfgUncapped.InitialBackoff * 2 ^ 0) cfgUncapped.MaxBackoff = 20 ∧
    (50 : Nat) ≠ 20 ∧
    (FetchSecretWithRetry attNone cancNone cfgFrac).waits = [5, 7, 10] ∧
    ((cfgFrac.InitialBackoff : Rat) * cfgFrac.Multiplier ^ 2) = 45 / 4 ∧
    min ((⌊(45 : Rat) / 4⌋).toNat) cfgFrac.MaxBackoff = 11 ∧
    (10 : Nat) ≠ 11 := by
  refine ⟨by decide, by decide, by decide, by decide, ?_, ?_, by decide⟩
  · have h : ratThreeHalves = 3 / 2 := by
      rw [ratThreeHalves, Rat.mk'_eq_divInt, Rat.divInt_eq_div]
      norm_num
    show ((5 : Rat) * ratThreeHalves ^ 2) = 45 / 4
    rw [h]
    norm_num
  · have h : (⌊(45 : Rat) / 4⌋).toNat = 11 := by
      norm_num
      decide
    rw [h]
    decide

theorem C9_witness :
    cfgExample.Multiplier = ((2 : Nat) : Rat) ∧
    (FetchSecretWithRetry attThird cancNone cfgExample).result = RetryResult.success "data" ∧
    (FetchSecretWithRetry attThird cancNone cfgExample).attemptsMade = 3 ∧
    (FetchSecretWithRetry attThird cancNone cfgExample).waits = [10000000, 20000000] ∧
    min (cfgExample.InitialBackoff * 2 ^ 0) cfgExample.MaxBackoff = 10000000 ∧
    min (cfgExample.InitialBackoff * 2 ^ 1) cfgExample.MaxBackoff = 20000000 := by
  have h := C9_retry_behaviour attThird cancNone cfgExample 2 (by decide) (by decide) (by decide)
  have hs := h.2.2.2 2 "data" (by decide) (fun i hi => by
      interval_cases i <;> decide) (by decide) (fun i h1i hin => rfl)
  exact ⟨by decide, hs.1, hs.2.1, by decide, by decide, by decide⟩

end SecretsSync
